import Mathlib

/-!
Verification of the `postcast` podcast feed generator (`get_podcasts.py`).

The Python source is shallowly embedded here: pure functions become Lean
functions, the mutated `BeautifulSoup` feed tree becomes an explicit
document structure, the network becomes an oracle record (`Env`), the file
system becomes a lookup function, and Python exceptions become `Except`
values.  The external `dateutil` parser and Python regex primitives are
modelled by executable Lean functions, restricted to the ASCII inputs that
the program handles.
-/

set_option autoImplicit false

namespace Postcasts

/-! ## Python string primitives, modelled over `List Char` -/

/-- A word character for the purposes of the regex `\b` boundary
(ASCII reading of Python's `\w`). -/
def isWordChar (c : Char) : Bool :=
  c.isAlpha || c.isDigit || c = '_'

/-- Lowercasing, Python `str.lower` on ASCII data. -/
def lowerStr (s : String) : String :=
  ⟨s.data.map Char.toLower⟩

/-- Maximal runs of word characters of a string, in order: the candidate
match sites of a `\b...\b` regex.  `acc` holds the current run reversed. -/
def wordRunsAux (acc : List Char) : List Char → List (List Char)
  | [] => if acc.isEmpty then [] else [acc.reverse]
  | c :: rest =>
    if isWordChar c then
      wordRunsAux (c :: acc) rest
    else
      if acc.isEmpty then wordRunsAux [] rest
      else acc.reverse :: wordRunsAux [] rest

def wordRuns (l : List Char) : List (List Char) :=
  wordRunsAux [] l

/-- Model of `re.search(r'\b([a-z]{3})\b', s, re.IGNORECASE)`: the first standalone
three-letter alphabetic token of `s`. -/
def firstToken3 (s : String) : Option String :=
  ((wordRuns s.data).find? (fun r => r.length == 3 && r.all Char.isAlpha)).map
    (fun r => ⟨r⟩)

/-- Emit a pending (reversed) word run, substituting `eng` for it when it
equals `ita` up to case.  `ita` is lowercase. -/
def flushWord (ita eng acc : List Char) : List Char :=
  if acc.isEmpty then []
  else
    if acc.reverse.map Char.toLower = ita then eng else acc.reverse

/-- Model of `re.sub(r'\b' + ita + r'\b', eng, s, flags=re.IGNORECASE)` for a purely
alphabetic `ita`: every standalone word equal to `ita` up to case is
replaced by `eng`; all other characters are kept. -/
def subWordAux (ita eng : List Char) (acc : List Char) : List Char → List Char
  | [] => flushWord ita eng acc
  | c :: rest =>
    if isWordChar c then
      subWordAux ita eng (c :: acc) rest
    else
      flushWord ita eng acc ++ (c :: subWordAux ita eng [] rest)

def subWord (ita eng s : String) : String :=
  ⟨subWordAux ita.data eng.data [] s.data⟩

/-- Splitting on a separator character (used to model whitespace- and
colon-tokenization inside the date parser). -/
def splitOnChar (sep : Char) (l : List Char) : List (List Char) :=
  l.foldr
    (fun c acc =>
      if c = sep then [] :: acc
      else
        match acc with
        | a :: rest => (c :: a) :: rest
        | [] => [[c]])
    [[]]

/-- Python `int(...)`-style digit-string parsing (non-negative, no sign). -/
def parseNatDigits (l : List Char) : Option Nat :=
  if !l.isEmpty && l.all Char.isDigit then
    some (l.foldl (fun n c => n * 10 + (c.toNat - 48)) 0)
  else none

/-- Python `str.startswith`. -/
def pyStartsWith (s pre : String) : Bool :=
  pre.data.isPrefixOf s.data

/-- Whether `pat` occurs as a contiguous sublist (Python `pat in s`). -/
def containsSub (pat : List Char) : List Char → Bool
  | [] => pat.isEmpty
  | c :: rest => pat.isPrefixOf (c :: rest) || containsSub pat rest

/-- Python `str.replace`, replacing every non-overlapping occurrence of
`pat` left to right.  Structured with explicit fuel so that the kernel can
evaluate it; `pyReplace` supplies sufficient fuel. -/
def replGo (pat rep : List Char) : Nat → List Char → List Char
  | _, [] => []
  | 0, l => l
  | fuel + 1, c :: rest =>
    if pat ≠ [] ∧ pat.isPrefixOf (c :: rest) = true then
      rep ++ replGo pat rep fuel ((c :: rest).drop pat.length)
    else
      c :: replGo pat rep fuel rest

def pyReplace (s old new : String) : String :=
  ⟨replGo old.data new.data s.data.length s.data⟩

instance instDecEqExcept {ε α : Type} [DecidableEq ε] [DecidableEq α] :
    DecidableEq (Except ε α) := fun x y =>
  match x, y with
  | .error a, .error b =>
    if h : a = b then .isTrue (by rw [h])
    else .isFalse (fun hc => h (Except.error.inj hc))
  | .ok a, .ok b =>
    if h : a = b then .isTrue (by rw [h])
    else .isFalse (fun hc => h (Except.ok.inj hc))
  | .error _, .ok _ => .isFalse (fun hc => Except.noConfusion hc)
  | .ok _, .error _ => .isFalse (fun hc => Except.noConfusion hc)

/-! ## Date normalizer (`parse_italian_date`, lines 87-101) -/

/-- A concrete date-time value, the shallow embedding of Python
`datetime.datetime`. -/
structure DateTime where
  year : Nat
  month : Nat
  day : Nat
  hour : Nat
  minute : Nat
  second : Nat
deriving DecidableEq

/-- Error taxonomy of the embedded program: each constructor stands for one
Python exception actually raised by the source. -/
inductive Err where
  /-- Python `FileNotFoundError` from `open` in `load_existing_feed`. -/
  | fileNotFound
  /-- Python `AttributeError("Feed not loaded or initialized")`. -/
  | notInitialized
  /-- Python `Exception("Sessione non loggata")`. -/
  | notLoggedIn
  /-- Python `Exception` raised by `wplogin` on empty credentials. -/
  | credsRequired
  /-- Python `Exception` raised when the ajax listing endpoint answers `msg != OK`. -/
  | remote (msg : String)
  /-- The `dateutil` `ParserError` escaping `parse_italian_date`. -/
  | dateParse
deriving DecidableEq

def englishMonthAbbrevs : List String :=
  ["jan", "feb", "mar", "apr", "may", "jun",
   "jul", "aug", "sep", "oct", "nov", "dec"]

def monthFromAbbrevGo (s : String) : List String → Nat → Option Nat
  | [], _ => none
  | m :: ms, k => if m = s then some k else monthFromAbbrevGo s ms (k + 1)

def monthFromAbbrev (s : String) : Option Nat :=
  monthFromAbbrevGo (lowerStr s) englishMonthAbbrevs 1

def parseTime (l : List Char) : Option (Nat × Nat) :=
  match splitOnChar ':' l with
  | [h, m] =>
    match parseNatDigits h, parseNatDigits m with
    | some hh, some mm => if hh < 24 && mm < 60 then some (hh, mm) else none
    | _, _ => none
  | _ => none

def mkDMY (d m y : List Char) (t : Option (List Char)) : Option DateTime :=
  match parseNatDigits d, monthFromAbbrev ⟨m⟩, parseNatDigits y with
  | some dd, some mm, some yy =>
    if 1 ≤ dd && dd ≤ 31 && y.length == 4 then
      match t with
      | none => some ⟨yy, mm, dd, 0, 0, 0⟩
      | some tk =>
        match parseTime tk with
        | some (hh, mi) => some ⟨yy, mm, dd, hh, mi, 0⟩
        | none => none
    else none
  | _, _, _ => none

/-- Model of the external `dateutil.parser.parse` library call, restricted
to the `day month-abbreviation year [HH:MM]` token shapes that the scraped
listings and the specification's examples use; it answers `none` exactly
where the library raises `ParserError`. -/
def dateutil_parse (s : String) : Option DateTime :=
  let toks := (splitOnChar ' ' s.data).filter (fun t => !t.isEmpty)
  match toks with
  | [d, m, y] => mkDMY d m y none
  | [d, m, y, t] => mkDMY d m y (some t)
  | _ => none

/-- The Italian-to-English month table of `parse_italian_date`. -/
def months : List (String × String) :=
  [("gen", "Jan"), ("feb", "Feb"), ("mar", "Mar"), ("apr", "Apr"),
   ("mag", "May"), ("giu", "Jun"), ("lug", "Jul"), ("ago", "Aug"),
   ("set", "Sep"), ("ott", "Oct"), ("nov", "Nov"), ("dic", "Dec")]

/-- Source `parse_italian_date` (lines 87-101): find the first standalone
three-letter alphabetic token; when it is a known Italian month
abbreviation, substitute the English abbreviation for its standalone
occurrences; then hand the string to the general date parser. -/
def parse_italian_date (date_str : String) : Except Err DateTime :=
  let substituted :=
    match firstToken3 date_str with
    | some tok =>
      match List.lookup (lowerStr tok) months with
      | some eng => subWord (lowerStr tok) eng date_str
      | none => date_str
    | none => date_str
  match dateutil_parse substituted with
  | some d => .ok d
  | none => .error .dateParse

/-! ## RFC-2822 date formatting (`email.utils.format_datetime`) -/

/-- The decimal digit characters used by zero-padded formatting; the
argument is always below ten at use sites. -/
def digitChar : Nat → Char
  | 0 => '0' | 1 => '1' | 2 => '2' | 3 => '3' | 4 => '4'
  | 5 => '5' | 6 => '6' | 7 => '7' | 8 => '8' | _ => '9'

/-- Python `"%02d"` for values below one hundred (all date components are). -/
def two (n : Nat) : String :=
  ⟨[digitChar (n / 10 % 10), digitChar (n % 10)]⟩

/-- Python `"%04d"` for values below ten thousand. -/
def four (n : Nat) : String :=
  ⟨[digitChar (n / 1000 % 10), digitChar (n / 100 % 10),
    digitChar (n / 10 % 10), digitChar (n % 10)]⟩

def dayNames : List String :=
  ["Mon", "Tue", "Wed", "Thu", "Fri", "Sat", "Sun"]

def monthAbbrevNames : List String :=
  ["Jan", "Feb", "Mar", "Apr", "May", "Jun",
   "Jul", "Aug", "Sep", "Oct", "Nov", "Dec"]

/-- Day of the week by Zeller's congruence, numbered as Python's
`datetime.weekday` (Monday = 0). -/
def weekdayOf (y m d : Nat) : Nat :=
  let yy := if m ≤ 2 then y - 1 else y
  let mm := if m ≤ 2 then m + 12 else m
  let K := yy % 100
  let J := yy / 100
  let h := (d + 13 * (mm + 1) / 5 + K + K / 4 + J / 4 + 5 * J) % 7
  (h + 5) % 7

def dayName (n : Nat) : String :=
  dayNames.getD (n % 7) "Mon"

def monthName (m : Nat) : String :=
  monthAbbrevNames.getD (m - 1) "Jan"

/-- Model of the library call `email.utils.format_datetime` on a naive
datetime: `"Ddd, DD Mon YYYY HH:MM:SS -0000"`. -/
def format_datetime (dt : DateTime) : String :=
  dayName (weekdayOf dt.year dt.month dt.day) ++ ", " ++ two dt.day ++ " " ++
    monthName dt.month ++ " " ++ four dt.year ++ " " ++ two dt.hour ++ ":" ++
    two dt.minute ++ ":" ++ two dt.second ++ " -0000"

/-! ## URL normalizer (`normalize_podcast_url`, lines 68-85) -/

/-- Outcome of the `session.head` existence probe: an HTTP status code, or
`failure` for a timeout or any transport exception. -/
inductive ProbeResult where
  | status (code : Nat)
  | failure
deriving DecidableEq

def cdn_host : String := "https://static-prod.cdnilpost.com"

def www_host : String := "https://www.ilpost.it"

def base_url : String := "https://www.ilpost.it/"

/-- Source `normalize_podcast_url` (lines 68-85).  The `session` argument becomes
the `probe` oracle; the second component of the result records the URLs
probed over the network (the function issues at most one `head` request).
Python's `except Exception` branch is the `failure` case: the function
never raises. -/
def normalize_podcast_url (url : String) (probe : String → ProbeResult) :
    String × List String :=
  if ¬ pyStartsWith url cdn_host then (url, [])
  else
    match probe url with
    | .status 200 => (url, [url])
    | .status 404 => (pyReplace url cdn_host www_host, [url])
    | .status _ => (url, [url])
    | .failure => (url, [url])

/-! ## Episode entity (`Episode`, lines 103-139) -/

/-- A text node of the feed tree: either ordinary (escaped) text or a
`CData` section, `bs4`'s explicit unparsed-text convention in which the
payload is serialized verbatim. -/
inductive XmlText where
  | plain (s : String)
  | cdata (s : String)
deriving DecidableEq

/-- One serialized `<item>` fragment, the result of `Episode.get_tag`.
The `guid` text is written as `str(self.id)` and read back by
`has_episode` with `int(...)`, an exact round trip, so the model stores
the integer itself. -/
structure ItemTag where
  title : String
  enclosure_url : String
  enclosure_type : String
  enclosure_length : Int
  link : String
  pubDate : String
  itunes_duration : String
  description : XmlText
  guid_isPermaLink : String
  guid : Int
deriving DecidableEq

structure Episode where
  title : String
  url : String
  date : DateTime
  minutes : Int
  content_html : XmlText
  podcast_raw_url : String
  id : Int
  podcast_id : Int
  image : String
deriving DecidableEq

/-- Source `Episode.get_tag` (lines 115-139). -/
def Episode.get_tag (e : Episode) : ItemTag :=
  { title := e.title
    enclosure_url := e.podcast_raw_url
    enclosure_type := "audio/mpeg"
    enclosure_length := e.minutes * 60
    link := e.url
    pubDate := format_datetime e.date
    itunes_duration := toString (e.minutes * 60)
    description := e.content_html
    guid_isPermaLink := "false"
    guid := e.id }

/-! ## Feed store (`Postcast`, lines 141-216) -/

/-- Source `PodcastInfoDict` (lines 21-27). -/
structure PodcastInfoDict where
  title : String
  author : String
  id : Int
  access_level : Int
  image : String
  description : String
deriving DecidableEq

/-- The `<channel>` element: the fixed metadata written by
`initialize_feed` followed by the ordered `<item>` children. -/
structure Channel where
  block : String
  title : String
  image : String
  description : String
  language : String
  link : String
  author : String
  explicit_flag : String
  items : List ItemTag
deriving DecidableEq

/-- A parsed feed tree as `BeautifulSoup` exposes it: `channel` is `none`
when the parsed markup contains no `<channel>` element (the lenient parser
never fails, it just produces a tree without the expected nodes). -/
structure Feed where
  channel : Option Channel
deriving DecidableEq

structure Postcast where
  slug : String
  title : String
  author : String
  id : Int
  access_level : Int
  image : String
  description : String
  feed : Option Feed
deriving DecidableEq

/-- Source `Postcast.__init__` (lines 151-159). -/
def Postcast.ofInfo (slug : String) (d : PodcastInfoDict) : Postcast :=
  { slug := slug
    title := d.title
    author := d.author
    id := d.id
    access_level := d.access_level
    image := d.image
    description := d.description
    feed := none }

/-- Source `Postcast.is_initialized` (lines 161-162). -/
def Postcast.is_initialized (p : Postcast) : Bool :=
  p.feed.isSome

/-- Source `Postcast.initialize_feed` (lines 169-199).  The template literal
always contains `<rss>` and `<channel>`, so the `AttributeError` guard on
lines 177-178 is unreachable and the operation is total. -/
def Postcast.initialize_feed (p : Postcast) : Postcast :=
  let ch : Channel :=
    { block := "Yes"
      title := p.title
      image := p.image
      description := p.description
      language := "it"
      link := base_url ++ "podcasts/" ++ p.slug
      author := p.author
      explicit_flag := "false"
      items := [] }
  { p with feed := some (Feed.mk (some ch)) }

/-- Source `Postcast.has_episode` (lines 201-207): scan the `guid` elements of
the channel. -/
def Postcast.has_episode (p : Postcast) (episode_id : Int) : Except Err Bool :=
  match p.feed with
  | none => .error .notInitialized
  | some f =>
    match f.channel with
    | none => .error .notInitialized
    | some ch => .ok (ch.items.any (fun it => it.guid == episode_id))

/-- Source `Postcast.add_episode` (lines 209-216): no-op when the identifier is
already present, otherwise append the serialized fragment as the last
channel entry. -/
def Postcast.add_episode (p : Postcast) (episode : Episode) : Except Err Postcast :=
  match p.feed with
  | none => .error .notInitialized
  | some f =>
    match f.channel with
    | none => .error .notInitialized
    | some ch =>
      match p.has_episode episode.id with
      | .error e => .error e
      | .ok true => .ok p
      | .ok false =>
        let ch' : Channel := { ch with items := ch.items ++ [episode.get_tag] }
        .ok { p with feed := some { f with channel := some ch' } }

/-- The entry list of a podcast's in-memory document (empty when no
document is loaded). -/
def itemsOf (p : Postcast) : List ItemTag :=
  match p.feed with
  | some f =>
    match f.channel with
    | some ch => ch.items
    | none => []
  | none => []

/-- Whether a document with a channel is loaded or initialized, i.e. the
state in which `has_episode` and `add_episode` do not raise. -/
def isReady (p : Postcast) : Bool :=
  match p.feed with
  | some f => f.channel.isSome
  | none => false

/-- The membership test as a total function on the entry list. -/
def hasGuid (p : Postcast) (i : Int) : Bool :=
  (itemsOf p).any (fun it => it.guid == i)

/-- Folding `add_episode` over a call sequence. -/
def addAll (p : Postcast) : List Episode → Except Err Postcast
  | [] => .ok p
  | e :: es =>
    match p.add_episode e with
    | .ok p' => addAll p' es
    | .error er => .error er

/-! ## File system (persistence of `<slug>.xml`) -/

/-- Content of a stored file.  `feedDoc f` is a file whose text is the
(prettified) serialization of the well-formed tree `f`; re-parsing such a
file recovers `f` (XML serialization round trip).  `otherXml` is any file
whose text does not contain a `<channel>` element — the lenient parser
turns it into a tree with no channel instead of failing. -/
inductive FileData where
  | feedDoc (f : Feed)
  | otherXml
deriving DecidableEq

def FS : Type := String → Option FileData

/-- What `BeautifulSoup(text, 'xml')` yields for a stored file. -/
def parseXmlFile : FileData → Feed
  | .feedDoc f => f
  | .otherXml => { channel := none }

/-- Source `Postcast.load_existing_feed` (lines 164-167): raise
`FileNotFoundError` when the file is absent, else parse it (the parse
itself cannot fail). -/
def load_existing_feed (fs : FS) (folder : String) (p : Postcast) :
    Except Err Postcast :=
  match fs (folder ++ "/" ++ p.slug ++ ".xml") with
  | none => .error .fileNotFound
  | some fd => .ok { p with feed := some (parseXmlFile fd) }

/-- The write on lines 432-436: persist `str(p.feed.prettify())` to the
slug-derived path, guarded by `p.feed is not None`. -/
def persistPodcast (fs : FS) (folder : String) (p : Postcast) : FS :=
  match p.feed with
  | none => fs
  | some f =>
    fun k => if k = folder ++ "/" ++ p.slug ++ ".xml" then some (.feedDoc f) else fs k

/-! ## Session and external collaborators -/

structure SessionState where
  logged_in : Bool
deriving DecidableEq

/-- Source `PostcastSession.wplogin` (lines 225-235).  `postResponse` is the HTTP
status of the login POST; the source discards it, so the definition does
not consult it: `logged_in` becomes true unconditionally after the POST. -/
def wplogin (_postResponse : Nat) (st : SessionState) (username password : String) :
    Except Err SessionState :=
  if username = "" ∨ password = "" then .error .credsRequired
  else .ok { st with logged_in := true }

/-- One listing entry of the ajax answer (`EpisodeData`, lines 29-39;
fields the engine does not read are omitted). -/
structure EpisodeData where
  title : String
  url : String
  date : String
  minutes : Int
  podcast_raw_url : String
  id : Int
  podcast_id : Int
  image : String
deriving DecidableEq

/-- Source `PodcastListData` (lines 64-66). -/
structure PodcastListData where
  postcastList : List EpisodeData
  msg : String
deriving DecidableEq

/-- The network, as oracles: the ajax listing endpoint keyed by podcast
id, the content API keyed by episode id (`none` models an answer without
`content_html`), the `head` probe, and the status of the login POST. -/
structure Env where
  listing : Int → Except Err PodcastListData
  content : Int → Option String
  probe : String → ProbeResult
  loginResponse : Nat

/-- Source `get_podcast_data` (lines 310-335): guarded by the `logged_in` flag;
an answer with `msg != 'OK'` raises. -/
def get_podcast_data (env : Env) (st : SessionState) (p : Postcast) :
    Except Err PodcastListData :=
  if ¬ st.logged_in then .error .notLoggedIn
  else
    match env.listing p.id with
    | .error e => .error e
    | .ok data => if data.msg ≠ "OK" then .error (.remote data.msg) else .ok data

/-- Source `get_episode_content` (lines 337-358): guarded by the `logged_in`
flag; an answer without the content is `{}` (here `none`), not an error. -/
def get_episode_content (env : Env) (st : SessionState) (episode_id : Int) :
    Except Err (Option String) :=
  if ¬ st.logged_in then .error .notLoggedIn
  else .ok (env.content episode_id)

/-! ## Sync engine (`build_feed`, lines 270-308, and the `__main__` loop,
lines 360-438) -/

/-- The body shared by the two reconciliation loops (lines 277-300 and
397-420): fetch the rich content, skip the episode when its primary media
URL is empty, otherwise normalize the URL, parse the date, build the
`Episode` and append it. -/
def processOneEpisode (env : Env) (st : SessionState) (p : Postcast)
    (j : EpisodeData) : Except Err Postcast :=
  match get_episode_content env st j.id with
  | .error e => .error e
  | .ok c =>
    let content_html : XmlText :=
      match c with
      | some s => .cdata s
      | none => .plain ""
    if j.podcast_raw_url = "" then .ok p
    else
      let normalized := (normalize_podcast_url j.podcast_raw_url env.probe).1
      match parse_italian_date j.date with
      | .error _ => .error .dateParse
      | .ok d =>
        p.add_episode
          { title := j.title
            url := j.url
            date := d
            minutes := j.minutes
            content_html := content_html
            podcast_raw_url := normalized
            id := j.id
            podcast_id := j.podcast_id
            image := j.image }

/-- The `for json_episode in data['postcastList']` loop of `build_feed`. -/
def processEpisodes (env : Env) (st : SessionState) :
    Postcast → List EpisodeData → Except Err Postcast
  | p, [] => .ok p
  | p, j :: rest =>
    match processOneEpisode env st p j with
    | .error e => .error e
    | .ok p' => processEpisodes env st p' rest

/-- One step of the incremental loop of `__main__` (lines 392-421): skip
episodes already present, then proceed as in `build_feed`. -/
def processOneNew (env : Env) (st : SessionState) (p : Postcast)
    (j : EpisodeData) : Except Err Postcast :=
  match p.has_episode j.id with
  | .error e => .error e
  | .ok true => .ok p
  | .ok false => processOneEpisode env st p j

/-- The incremental reconciliation loop of `__main__`. -/
def processNewEpisodes (env : Env) (st : SessionState) :
    Postcast → List EpisodeData → Except Err Postcast
  | p, [] => .ok p
  | p, j :: rest =>
    match processOneNew env st p j with
    | .error e => .error e
    | .ok p' => processNewEpisodes env st p' rest

/-- Source `build_feed` (lines 270-308). -/
def build_feed (env : Env) (st : SessionState) (podcast : Postcast) :
    Except Err Postcast :=
  if ¬ st.logged_in then .error .notLoggedIn
  else
    let p := if podcast.is_initialized then podcast else podcast.initialize_feed
    match get_podcast_data env st p with
    | .error e => .error e
    | .ok data => processEpisodes env st p data.postcastList

/-- The `try` body of the per-podcast loop (lines 384-427): load the
existing feed, log in, fetch the listing, reconcile. -/
def processSlugInner (env : Env) (u pw folder : String) (fs : FS)
    (st : SessionState) (slug : String) (info : PodcastInfoDict) :
    Except Err (Postcast × SessionState) :=
  match load_existing_feed fs folder (Postcast.ofInfo slug info) with
  | .error e => .error e
  | .ok p =>
    match wplogin env.loginResponse st u pw with
    | .error e => .error e
    | .ok st' =>
      match get_podcast_data env st' p with
      | .error e => .error e
      | .ok data =>
        match processNewEpisodes env st' p data.postcastList with
        | .error e => .error e
        | .ok p' => .ok (p', st')

/-- One iteration of the per-podcast loop (lines 382-436).  Only
`FileNotFoundError` is caught (lines 428-431), by logging in and building
a fresh feed; the file write of lines 432-436 runs after either branch;
every other error propagates out of the loop. -/
def processSlug (env : Env) (u pw folder : String) (fs : FS)
    (st : SessionState) (slug : String) (info : PodcastInfoDict) :
    Except Err (FS × SessionState) :=
  match processSlugInner env u pw folder fs st slug info with
  | .ok (p, st') => .ok (persistPodcast fs folder p, st')
  | .error .fileNotFound =>
    match wplogin env.loginResponse st u pw with
    | .error e => .error e
    | .ok st' =>
      match build_feed env st' (Postcast.ofInfo slug info) with
      | .error e => .error e
      | .ok p => .ok (persistPodcast fs folder p, st')
  | .error e => .error e

/-- The `for slug in podcast_info_dicts.keys()` loop (lines 382-436)
together with the top-level `except Exception` handler (lines 437-438):
on an uncaught per-podcast error the loop stops, the handler logs, and
the files written so far are what remains on disk. -/
def mainLoop (env : Env) (u pw folder : String) (fs : FS) (st : SessionState) :
    List (String × PodcastInfoDict) → FS × SessionState × Option Err
  | [] => (fs, st, none)
  | (slug, info) :: rest =>
    match processSlug env u pw folder fs st slug info with
    | .ok (fs', st') => mainLoop env u pw folder fs' st' rest
    | .error e => (fs, st, some e)

/-! ## Helper lemmas about the feed store -/

theorem has_episode_eq_ok (p : Postcast) (i : Int) (hr : isReady p = true) :
    p.has_episode i = .ok (hasGuid p i) := by
  obtain ⟨slug, title, author, id, al, img, desc, feed⟩ := p
  cases feed with
  | none => simp [isReady] at hr
  | some f =>
    obtain ⟨ch⟩ := f
    cases ch with
    | none => simp [isReady] at hr
    | some c => simp [Postcast.has_episode, hasGuid, itemsOf]

theorem has_episode_eq_err (p : Postcast) (i : Int) (hr : isReady p = false) :
    p.has_episode i = .error .notInitialized := by
  obtain ⟨slug, title, author, id, al, img, desc, feed⟩ := p
  cases feed with
  | none => simp [Postcast.has_episode]
  | some f =>
    obtain ⟨ch⟩ := f
    cases ch with
    | none => simp [Postcast.has_episode]
    | some c => simp [isReady] at hr

theorem add_episode_present (p : Postcast) (e : Episode) (hr : isReady p = true)
    (hg : hasGuid p e.id = true) : p.add_episode e = .ok p := by
  obtain ⟨slug, title, author, id, al, img, desc, feed⟩ := p
  cases feed with
  | none => simp [isReady] at hr
  | some f =>
    obtain ⟨ch⟩ := f
    cases ch with
    | none => simp [isReady] at hr
    | some c =>
      have hg' : (c.items.any fun it => it.guid == e.id) = true := hg
      simp only [Postcast.add_episode, Postcast.has_episode, hg']

theorem add_episode_absent (p : Postcast) (e : Episode) (hr : isReady p = true)
    (hg : hasGuid p e.id = false) :
    ∃ p', p.add_episode e = .ok p' ∧ itemsOf p' = itemsOf p ++ [e.get_tag] ∧
      isReady p' = true ∧ p'.slug = p.slug := by
  obtain ⟨slug, title, author, id, al, img, desc, feed⟩ := p
  cases feed with
  | none => simp [isReady] at hr
  | some f =>
    obtain ⟨ch⟩ := f
    cases ch with
    | none => simp [isReady] at hr
    | some c =>
      have hg' : (c.items.any fun it => it.guid == e.id) = false := hg
      refine ⟨⟨slug, title, author, id, al, img, desc,
        some ⟨some { c with items := c.items ++ [e.get_tag] }⟩⟩, ?_, ?_, ?_, ?_⟩
      · simp only [Postcast.add_episode, Postcast.has_episode, hg']
      · simp [itemsOf]
      · simp [isReady]
      · rfl

theorem add_episode_ok_ready (p : Postcast) (e : Episode) (p' : Postcast)
    (h : p.add_episode e = .ok p') : isReady p = true ∧ isReady p' = true := by
  obtain ⟨slug, title, author, id, al, img, desc, feed⟩ := p
  cases feed with
  | none => simp [Postcast.add_episode] at h
  | some f =>
    obtain ⟨ch⟩ := f
    cases ch with
    | none => simp [Postcast.add_episode] at h
    | some c =>
      refine ⟨by simp [isReady], ?_⟩
      simp only [Postcast.add_episode, Postcast.has_episode] at h
      cases hb : c.items.any (fun it => it.guid == e.id) <;>
        rw [hb] at h <;> simp only [Except.ok.injEq] at h <;>
          rw [← h] <;> simp [isReady]

theorem itemsOf_add (p : Postcast) (e : Episode) (p' : Postcast)
    (h : p.add_episode e = .ok p') :
    itemsOf p' = itemsOf p ∨ itemsOf p' = itemsOf p ++ [e.get_tag] := by
  obtain ⟨slug, title, author, id, al, img, desc, feed⟩ := p
  cases feed with
  | none => simp [Postcast.add_episode] at h
  | some f =>
    obtain ⟨ch⟩ := f
    cases ch with
    | none => simp [Postcast.add_episode] at h
    | some c =>
      simp only [Postcast.add_episode, Postcast.has_episode] at h
      cases hb : c.items.any (fun it => it.guid == e.id)
      · rw [hb] at h
        simp only [Except.ok.injEq] at h
        right
        rw [← h]
        simp [itemsOf]
      · rw [hb] at h
        simp only [Except.ok.injEq] at h
        left
        rw [← h]

theorem hasGuid_add (p : Postcast) (e : Episode) (p' : Postcast) (x : Int)
    (h : p.add_episode e = .ok p') :
    hasGuid p' x = (hasGuid p x || (e.id == x)) := by
  obtain ⟨slug, title, author, id, al, img, desc, feed⟩ := p
  cases feed with
  | none => simp [Postcast.add_episode] at h
  | some f =>
    obtain ⟨ch⟩ := f
    cases ch with
    | none => simp [Postcast.add_episode] at h
    | some c =>
      simp only [Postcast.add_episode, Postcast.has_episode] at h
      cases hb : c.items.any (fun it => it.guid == e.id)
      · rw [hb] at h
        simp only [Except.ok.injEq] at h
        rw [← h]
        simp [hasGuid, itemsOf, Episode.get_tag, List.any_append]
      · rw [hb] at h
        simp only [Except.ok.injEq] at h
        rw [← h]
        cases he : e.id == x
        · simp only [Bool.or_false]
        · have hx : e.id = x := eq_of_beq he
          subst hx
          have hgx : hasGuid ⟨slug, title, author, id, al, img, desc,
              some ⟨some c⟩⟩ e.id = true := hb
          simp [hgx]

theorem addAll_spec (es : List Episode) (p : Postcast) (hr : isReady p = true)
    (hnd : (es.map Episode.id).Nodup)
    (hab : ∀ e ∈ es, hasGuid p e.id = false) :
    ∃ p', addAll p es = .ok p' ∧
      itemsOf p' = itemsOf p ++ es.map Episode.get_tag ∧ isReady p' = true := by
  induction es generalizing p with
  | nil => exact ⟨p, rfl, by simp, hr⟩
  | cons e es ih =>
    have hge : hasGuid p e.id = false := hab e (List.mem_cons_self e es)
    obtain ⟨p₁, hadd, hitems, hr₁, _⟩ := add_episode_absent p e hr hge
    simp only [List.map_cons, List.nodup_cons] at hnd
    have hab' : ∀ e' ∈ es, hasGuid p₁ e'.id = false := by
      intro e' he'
      rw [hasGuid_add p e p₁ e'.id hadd]
      have h1 : hasGuid p e'.id = false := hab e' (List.mem_cons_of_mem e he')
      have h2 : (e.id == e'.id) = false := by
        refine beq_eq_false_iff_ne.mpr ?_
        intro hc
        exact hnd.1 (hc ▸ List.mem_map_of_mem Episode.id he')
      simp [h1, h2]
    obtain ⟨p', hrec, hitems', hr'⟩ := ih p₁ hr₁ hnd.2 hab'
    refine ⟨p', ?_, ?_, hr'⟩
    · simp only [addAll, hadd, hrec]
    · rw [hitems', hitems]
      simp

/-! ## Sample data for the concrete witnesses -/

def infoS : PodcastInfoDict := ⟨"Titolo", "Autore", 9, 1, "img", "descr"⟩

def pS : Postcast := (Postcast.ofInfo "slugS" infoS).initialize_feed

def eS1 : Episode :=
  ⟨"ep1", "https://www.ilpost.it/ep1", ⟨2026, 1, 31, 14, 0, 0⟩, 10,
    .cdata "<p>uno</p>", "https://media.example/ep1.mp3", 101, 9, "img1"⟩

def eS2 : Episode :=
  ⟨"ep2", "https://www.ilpost.it/ep2", ⟨2026, 2, 7, 9, 30, 0⟩, 25,
    .plain "", "https://media.example/ep2.mp3", 102, 9, "img2"⟩

/-! ## Claims -/

/-- C2: `add_episode` is idempotent.  When an entry with the episode's
identifier is already present the call leaves the document unchanged, and
adding the same identifier twice therefore yields exactly one entry with
that identifier. -/
theorem c2_add_episode_idempotent :
    (∀ (p : Postcast) (e : Episode),
       p.has_episode e.id = .ok true → p.add_episode e = .ok p) ∧
    (∀ (p : Postcast) (e e' : Episode), e'.id = e.id →
       p.has_episode e.id = .ok false →
       ((p.add_episode e).bind fun p₁ => p₁.add_episode e') = p.add_episode e ∧
       ∃ p₁, p.add_episode e = .ok p₁ ∧
         ((itemsOf p₁).filter fun it => it.guid == e.id).length = 1) := by
  constructor
  · intro p e h
    cases hr : isReady p
    · rw [has_episode_eq_err p e.id hr] at h
      exact absurd h (by simp)
    · rw [has_episode_eq_ok p e.id hr] at h
      simp only [Except.ok.injEq] at h
      exact add_episode_present p e hr h
  · intro p e e' hid h
    cases hr : isReady p
    · rw [has_episode_eq_err p e.id hr] at h
      exact absurd h (by simp)
    · rw [has_episode_eq_ok p e.id hr] at h
      simp only [Except.ok.injEq] at h
      obtain ⟨p₁, hadd, hitems, hr₁, _⟩ := add_episode_absent p e hr h
      have hg₁ : hasGuid p₁ e'.id = true := by
        rw [hasGuid_add p e p₁ e'.id hadd, hid]
        simp
      constructor
      · rw [hadd]
        show p₁.add_episode e' = .ok p₁
        exact add_episode_present p₁ e' hr₁ hg₁
      · refine ⟨p₁, hadd, ?_⟩
        rw [hitems]
        rw [List.filter_append]
        have hnil : ((itemsOf p).filter fun it => it.guid == e.id) = [] := by
          rw [List.filter_eq_nil_iff]
          intro a ha hcontra
          have : hasGuid p e.id = true := by
            simp only [hasGuid, List.any_eq_true]
            exact ⟨a, ha, hcontra⟩
          rw [this] at h
          cases h
        rw [hnil]
        simp [Episode.get_tag]

/-- C2 witness: the idempotence theorem applied to a freshly initialized
sample podcast and a sample episode. -/
theorem c2_add_episode_idempotent_witness :
    ((pS.add_episode eS1).bind fun p₁ => p₁.add_episode eS1) = pS.add_episode eS1 ∧
    ∃ p₁, pS.add_episode eS1 = .ok p₁ ∧
      ((itemsOf p₁).filter fun it => it.guid == eS1.id).length = 1 :=
  c2_add_episode_idempotent.2 pS eS1 eS1 rfl (by decide)

/-- C3: entry order equals call order.  A single `add_episode` never
removes or reorders existing entries (it appends at most one fragment at
the end), and folding `add_episode` with pairwise distinct identifiers
over an initialized empty document produces exactly the call sequence's
fragments in call order. -/
theorem c3_add_episode_order_preservation :
    (∀ (p : Postcast) (e : Episode) (p' : Postcast), p.add_episode e = .ok p' →
       itemsOf p' = itemsOf p ∨ itemsOf p' = itemsOf p ++ [e.get_tag]) ∧
    (∀ (p : Postcast) (es : List Episode), isReady p = true → itemsOf p = [] →
       (es.map Episode.id).Nodup →
       ∃ p', addAll p es = .ok p' ∧ itemsOf p' = es.map Episode.get_tag) := by
  constructor
  · exact itemsOf_add
  · intro p es hr hempty hnd
    have hab : ∀ e ∈ es, hasGuid p e.id = false := by
      intro e _
      simp [hasGuid, hempty]
    obtain ⟨p', h1, h2, _⟩ := addAll_spec es p hr hnd hab
    refine ⟨p', h1, ?_⟩
    rw [h2, hempty]
    simp

/-- C3 witness: the order-preservation theorem applied to a fresh sample
podcast and two episodes with distinct identifiers. -/
theorem c3_add_episode_order_preservation_witness :
    ∃ p', addAll pS [eS1, eS2] = .ok p' ∧
      itemsOf p' = [eS1, eS2].map Episode.get_tag :=
  c3_add_episode_order_preservation.2 pS [eS1, eS2]
    (by decide) (by decide) (by decide)

/-- C7: round trip.  Initializing a fresh document, adding an episode,
persisting to the slug-derived path and loading from that path yields a
document in which `has_episode` answers true for the episode's
identifier. -/
theorem c7_roundtrip (fs : FS) (folder slug : String) (info : PodcastInfoDict)
    (e : Episode) :
    (((Postcast.ofInfo slug info).initialize_feed).add_episode e).bind (fun p₁ =>
      (load_existing_feed (persistPodcast fs folder p₁) folder
          (Postcast.ofInfo slug info)).bind (fun p₂ =>
        p₂.has_episode e.id)) = .ok true := by
  simp [Postcast.ofInfo, Postcast.initialize_feed, Postcast.add_episode,
    Postcast.has_episode, load_existing_feed, persistPodcast, parseXmlFile,
    Episode.get_tag, Except.bind]

theorem dayName_mem (n : Nat) : dayName n ∈ dayNames := by
  have hlt : n % 7 < 7 := Nat.mod_lt _ (by decide)
  have hall : ∀ k < 7, dayNames.getD k "Mon" ∈ dayNames := by decide
  exact hall _ hlt

theorem monthName_mem (m : Nat) (h1 : 1 ≤ m) (h2 : m ≤ 12) :
    monthName m ∈ monthAbbrevNames := by
  have hlt : m - 1 < 12 := by omega
  have hall : ∀ k < 12, monthAbbrevNames.getD k "Jan" ∈ monthAbbrevNames := by decide
  exact hall _ hlt

/-- C9: `Episode.get_tag` declares the enclosure length as the duration in
seconds (minutes times sixty, not a byte size), repeats the same value as
the itunes duration, renders the publish date in RFC-2822 shape, carries
the description text through unchanged (so a `CData` payload stays
unparsed text), and emits a non-permalink guid equal to the numeric id. -/
theorem c9_episode_serialization (e : Episode)
    (h1 : 1 ≤ e.date.month) (h2 : e.date.month ≤ 12) :
    e.get_tag.enclosure_length = e.minutes * 60 ∧
    e.get_tag.enclosure_type = "audio/mpeg" ∧
    e.get_tag.itunes_duration = toString (e.minutes * 60) ∧
    (∃ w mo, w ∈ dayNames ∧ mo ∈ monthAbbrevNames ∧
       e.get_tag.pubDate = w ++ ", " ++ two e.date.day ++ " " ++ mo ++ " " ++
         four e.date.year ++ " " ++ two e.date.hour ++ ":" ++ two e.date.minute ++
         ":" ++ two e.date.second ++ " -0000") ∧
    e.get_tag.description = e.content_html ∧
    e.get_tag.guid_isPermaLink = "false" ∧
    e.get_tag.guid = e.id := by
  refine ⟨rfl, rfl, rfl, ?_, rfl, rfl, rfl⟩
  exact ⟨dayName (weekdayOf e.date.year e.date.month e.date.day),
    monthName e.date.month, dayName_mem _, monthName_mem _ h1 h2, rfl⟩

/-- C9 witness: the serialization theorem applied to a sample episode. -/
theorem c9_episode_serialization_witness :
    eS1.get_tag.enclosure_length = eS1.minutes * 60 ∧
    eS1.get_tag.enclosure_type = "audio/mpeg" ∧
    eS1.get_tag.itunes_duration = toString (eS1.minutes * 60) ∧
    (∃ w mo, w ∈ dayNames ∧ mo ∈ monthAbbrevNames ∧
       eS1.get_tag.pubDate = w ++ ", " ++ two eS1.date.day ++ " " ++ mo ++ " " ++
         four eS1.date.year ++ " " ++ two eS1.date.hour ++ ":" ++ two eS1.date.minute ++
         ":" ++ two eS1.date.second ++ " -0000") ∧
    eS1.get_tag.description = eS1.content_html ∧
    eS1.get_tag.guid_isPermaLink = "false" ∧
    eS1.get_tag.guid = eS1.id :=
  c9_episode_serialization eS1 (by decide) (by decide)

/-- C4: `parse_italian_date` substitutes the first standalone three-letter
token when it is a known Italian month abbreviation and then applies the
general date parser; an input with no matching month token is handed to
the general parser unchanged (not an error by itself); the two concrete
behaviors of the specification hold. -/
theorem c4_parse_italian_date_spec :
    (∀ s : String,
       (match firstToken3 s with
        | some tok => List.lookup (lowerStr tok) months = none
        | none => True) →
       parse_italian_date s =
         match dateutil_parse s with
         | some d => .ok d
         | none => .error .dateParse) ∧
    (∀ (s tok eng : String), firstToken3 s = some tok →
       List.lookup (lowerStr tok) months = some eng →
       parse_italian_date s =
         match dateutil_parse (subWord (lowerStr tok) eng s) with
         | some d => .ok d
         | none => .error .dateParse) ∧
    firstToken3 "31 gen 2026 14:00" = some "gen" ∧
    (∃ d, parse_italian_date "31 gen 2026 14:00" = .ok d ∧
       d.year = 2026 ∧ d.month = 1 ∧ d.day = 31) ∧
    parse_italian_date "not a date" = .error .dateParse := by
  refine ⟨?_, ?_, by decide, ⟨⟨2026, 1, 31, 14, 0, 0⟩, by decide, rfl, rfl, rfl⟩,
    by decide⟩
  · intro s h
    unfold parse_italian_date
    cases hf : firstToken3 s with
    | none => rfl
    | some tok =>
      simp only [hf] at h
      simp only [hf, h]
  · intro s tok eng hf he
    unfold parse_italian_date
    simp only [hf, he]

/-- C4 witness: the no-month-token case of the theorem applied to an
already-English date string. -/
theorem c4_parse_italian_date_spec_witness :
    parse_italian_date "31 Jan 2026" =
      match dateutil_parse "31 Jan 2026" with
      | some d => .ok d
      | none => .error .dateParse :=
  c4_parse_italian_date_spec.1 "31 Jan 2026"
    (show List.lookup (lowerStr "Jan") months = none by decide)

/-- C10: `wplogin` raises exactly on empty credentials; otherwise it sets
the `logged_in` flag to true without inspecting the response of the login
POST, so the subsequent logged-in precondition checks (`get_podcast_data`,
`get_episode_content`) pass even when the server rejected the
credentials. -/
theorem c10_wplogin_spec :
    (∀ (r : Nat) (st : SessionState) (u pw : String), (u = "" ∨ pw = "") →
       wplogin r st u pw = .error .credsRequired) ∧
    (∀ (r : Nat) (st : SessionState) (u pw : String), u ≠ "" → pw ≠ "" →
       wplogin r st u pw = .ok { logged_in := true }) ∧
    (∀ (r r' : Nat) (st : SessionState) (u pw : String),
       wplogin r st u pw = wplogin r' st u pw) ∧
    (∀ (env : Env) (i : Int),
       get_episode_content env { logged_in := true } i = .ok (env.content i)) ∧
    (∀ (env : Env) (p : Postcast) (d : PodcastListData),
       env.listing p.id = .ok d → d.msg = "OK" →
       get_podcast_data env { logged_in := true } p = .ok d) ∧
    (∀ (env : Env) (p : Postcast),
       get_podcast_data env { logged_in := false } p = .error .notLoggedIn) ∧
    (∀ (env : Env) (p : Postcast),
       build_feed env { logged_in := false } p = .error .notLoggedIn) ∧
    (∀ (env : Env) (p : Postcast),
       build_feed env { logged_in := true } p =
         match get_podcast_data env { logged_in := true }
             (if p.is_initialized then p else p.initialize_feed) with
         | .error e => .error e
         | .ok data =>
           processEpisodes env { logged_in := true }
             (if p.is_initialized then p else p.initialize_feed)
             data.postcastList) := by
  refine ⟨?_, ?_, fun r r' st u pw => rfl, fun env i => rfl, ?_, fun env p => rfl,
    fun env p => rfl, fun env p => rfl⟩
  · intro r st u pw h
    unfold wplogin
    rw [if_pos h]
  · intro r st u pw hu hpw
    unfold wplogin
    rw [if_neg]
    rintro (h | h)
    · exact hu h
    · exact hpw h
  · intro env p d hl hm
    unfold get_podcast_data
    rw [hl]
    simp [hm]

/-- C10 witness: the login theorem applied to concrete credentials and
response codes. -/
theorem c10_wplogin_spec_witness :
    wplogin 500 ⟨false⟩ "user" "secret" = .ok { logged_in := true } ∧
    wplogin 200 ⟨false⟩ "" "secret" = .error .credsRequired :=
  ⟨c10_wplogin_spec.2.1 500 ⟨false⟩ "user" "secret" (by decide) (by decide),
   c10_wplogin_spec.1 200 ⟨false⟩ "" "secret" (Or.inl rfl)⟩

/-! ## Lemmas about the string-replacement model -/

theorem str_data_append (s t : String) : (s ++ t).data = s.data ++ t.data := rfl

theorem isPrefixOf_append_self (l t : List Char) : l.isPrefixOf (l ++ t) = true := by
  induction l with
  | nil => cases t <;> rfl
  | cons a l ih => simp [List.isPrefixOf, ih]

theorem replGo_not_contains (pat rep : List Char) :
    ∀ (fuel : Nat) (l : List Char), l.length ≤ fuel →
      containsSub pat l = false → replGo pat rep fuel l = l := by
  intro fuel
  induction fuel with
  | zero =>
    intro l hl _
    cases l with
    | nil => rfl
    | cons c rest => simp at hl
  | succ fuel ih =>
    intro l hl hc
    cases l with
    | nil => rfl
    | cons c rest =>
      simp only [containsSub, Bool.or_eq_false_iff] at hc
      unfold replGo
      rw [if_neg]
      · rw [ih rest (by simpa using Nat.le_of_succ_le_succ hl) hc.2]
      · rintro ⟨-, hp⟩
        rw [hc.1] at hp
        cases hp

theorem replGo_head (pat rep : List Char) (hne : pat ≠ []) :
    ∀ (fuel : Nat) (t : List Char), (pat ++ t).length ≤ fuel →
      containsSub pat t = false → replGo pat rep fuel (pat ++ t) = rep ++ t := by
  intro fuel t hl hc
  cases pat with
  | nil => exact absurd rfl hne
  | cons a as =>
    cases fuel with
    | zero => simp [List.length_append] at hl
    | succ fuel =>
      have hlen : t.length ≤ fuel := by
        simp [List.length_append] at hl
        omega
      show replGo (a :: as) rep (fuel + 1) (a :: (as ++ t)) = rep ++ t
      unfold replGo
      rw [if_pos ⟨hne, by rw [← List.cons_append]; exact isPrefixOf_append_self _ _⟩]
      have hdrop : (a :: (as ++ t)).drop (a :: as).length = t := by
        rw [← List.cons_append]
        exact List.drop_left _ _
      rw [hdrop, replGo_not_contains (a :: as) rep fuel t hlen hc]

/-- C5 (amended): a non-CDN URL is returned unchanged with no probe; a CDN
URL answering 200, any other status, or a transport failure is returned
unchanged after one probe; a CDN URL answering 404 is returned with every
occurrence of the CDN host string replaced by the primary host — which is
the identical-path rewrite whenever the CDN host string does not occur
again past the leading prefix. -/
theorem c5_normalize_url_behavior :
    (∀ (url : String) (probe : String → ProbeResult),
       pyStartsWith url cdn_host = false →
       normalize_podcast_url url probe = (url, [])) ∧
    (∀ (url : String) (probe : String → ProbeResult),
       pyStartsWith url cdn_host = true → probe url = .status 200 →
       normalize_podcast_url url probe = (url, [url])) ∧
    (∀ (path : String) (probe : String → ProbeResult),
       containsSub cdn_host.data path.data = false →
       probe (cdn_host ++ path) = .status 404 →
       normalize_podcast_url (cdn_host ++ path) probe =
         (www_host ++ path, [cdn_host ++ path])) ∧
    (∀ (url : String) (probe : String → ProbeResult),
       pyStartsWith url cdn_host = true → probe url = .status 404 →
       normalize_podcast_url url probe = (pyReplace url cdn_host www_host, [url])) ∧
    (∀ (url : String) (probe : String → ProbeResult) (c : Nat),
       pyStartsWith url cdn_host = true → probe url = .status c →
       c ≠ 200 → c ≠ 404 → normalize_podcast_url url probe = (url, [url])) ∧
    (∀ (url : String) (probe : String → ProbeResult),
       pyStartsWith url cdn_host = true → probe url = .failure →
       normalize_podcast_url url probe = (url, [url])) := by
  refine ⟨?_, ?_, ?_, ?_, ?_, ?_⟩
  · intro url probe hs
    unfold normalize_podcast_url
    rw [if_pos]
    simp [hs]
  · intro url probe hs hp
    unfold normalize_podcast_url
    rw [if_neg (by simp [hs]), hp]
  · intro path probe hnc hp
    have hsw : pyStartsWith (cdn_host ++ path) cdn_host = true := by
      unfold pyStartsWith
      rw [str_data_append]
      exact isPrefixOf_append_self _ _
    have hrepl : pyReplace (cdn_host ++ path) cdn_host www_host = www_host ++ path := by
      unfold pyReplace
      have hgo : replGo cdn_host.data www_host.data
          ((cdn_host ++ path).data).length ((cdn_host ++ path).data) =
          www_host.data ++ path.data := by
        rw [str_data_append]
        exact replGo_head cdn_host.data www_host.data (by decide) _ path.data
          le_rfl hnc
      rw [hgo, ← str_data_append]
    unfold normalize_podcast_url
    rw [if_neg (by simp [hsw]), hp, hrepl]
  · intro url probe hs hp
    unfold normalize_podcast_url
    rw [if_neg (by simp [hs]), hp]
  · intro url probe c hs hp h200 h404
    unfold normalize_podcast_url
    rw [if_neg (by simp [hs]), hp]
    split
    all_goals
      first
        | rfl
        | (rename_i heq
           exact absurd (ProbeResult.status.inj heq) h404)
  · intro url probe hs hp
    unfold normalize_podcast_url
    rw [if_neg (by simp [hs]), hp]

/-- C5 witness: the 404-rewrite case of the theorem at a concrete CDN URL
whose path does not repeat the CDN host. -/
theorem c5_normalize_url_behavior_witness :
    normalize_podcast_url (cdn_host ++ "/audio/ep.mp3") (fun _ => .status 404) =
      (www_host ++ "/audio/ep.mp3", [cdn_host ++ "/audio/ep.mp3"]) :=
  c5_normalize_url_behavior.2.2.1 "/audio/ep.mp3" (fun _ => .status 404)
    (by decide) rfl

def urlDouble : String :=
  "https://static-prod.cdnilpost.com/r/https://static-prod.cdnilpost.com/a.mp3"

/-- C5 counterexample: on a CDN URL whose path contains the CDN host string
again, a 404 probe does not yield the primary-host URL with identical path;
Python's `str.replace` rewrites every occurrence. -/
theorem c5_normalize_url_counterexample :
    (normalize_podcast_url urlDouble (fun _ => .status 404)).1 ≠
      www_host ++ "/r/https://static-prod.cdnilpost.com/a.mp3" ∧
    (normalize_podcast_url urlDouble (fun _ => .status 404)).1 =
      "https://www.ilpost.it/r/https://www.ilpost.it/a.mp3" := by
  exact ⟨by decide, by decide⟩

/-! ## Lemmas about the reconciliation loops -/

theorem get_episode_content_logged (env : Env) (st : SessionState) (i : Int)
    (hlog : st.logged_in = true) :
    get_episode_content env st i = .ok (env.content i) := by
  unfold get_episode_content
  rw [hlog]
  simp

theorem processOneEpisode_skip (env : Env) (st : SessionState) (p : Postcast)
    (j : EpisodeData) (hlog : st.logged_in = true) (hurl : j.podcast_raw_url = "") :
    processOneEpisode env st p j = .ok p := by
  unfold processOneEpisode
  rw [get_episode_content_logged env st j.id hlog]
  simp [hurl]

theorem processOneEpisode_ready (env : Env) (st : SessionState) (p : Postcast)
    (j : EpisodeData) (p' : Postcast) (hr : isReady p = true)
    (h : processOneEpisode env st p j = .ok p') : isReady p' = true := by
  unfold processOneEpisode at h
  cases hge : get_episode_content env st j.id with
  | error e =>
    rw [hge] at h
    exact Except.noConfusion h
  | ok c =>
    simp only [hge] at h
    by_cases hurl : j.podcast_raw_url = ""
    · simp [hurl] at h
      exact h ▸ hr
    · simp only [if_neg hurl] at h
      cases hd : parse_italian_date j.date with
      | error e2 =>
        rw [hd] at h
        exact Except.noConfusion h
      | ok d =>
        rw [hd] at h
        exact (add_episode_ok_ready _ _ _ h).2

theorem processOneEpisode_guid (env : Env) (st : SessionState) (p : Postcast)
    (j : EpisodeData) (p' : Postcast) (x : Int)
    (h : processOneEpisode env st p j = .ok p') (hx : x ≠ j.id) :
    hasGuid p' x = hasGuid p x := by
  unfold processOneEpisode at h
  cases hge : get_episode_content env st j.id with
  | error e =>
    rw [hge] at h
    exact Except.noConfusion h
  | ok c =>
    simp only [hge] at h
    by_cases hurl : j.podcast_raw_url = ""
    · simp [hurl] at h
      rw [← h]
    · simp only [if_neg hurl] at h
      cases hd : parse_italian_date j.date with
      | error e2 =>
        rw [hd] at h
        exact Except.noConfusion h
      | ok d =>
        rw [hd] at h
        rw [hasGuid_add _ _ _ x h]
        have hbx : (j.id == x) = false := beq_eq_false_iff_ne.mpr (Ne.symm hx)
        simp [hbx]

theorem processOneNew_skip (env : Env) (st : SessionState) (p : Postcast)
    (j : EpisodeData) (hlog : st.logged_in = true) (hr : isReady p = true)
    (hurl : j.podcast_raw_url = "") :
    processOneNew env st p j = .ok p := by
  unfold processOneNew
  rw [has_episode_eq_ok p j.id hr]
  cases hg : hasGuid p j.id
  · exact processOneEpisode_skip env st p j hlog hurl
  · rfl

theorem processOneNew_ready (env : Env) (st : SessionState) (p : Postcast)
    (j : EpisodeData) (p' : Postcast) (hr : isReady p = true)
    (h : processOneNew env st p j = .ok p') : isReady p' = true := by
  unfold processOneNew at h
  rw [has_episode_eq_ok p j.id hr] at h
  cases hg : hasGuid p j.id
  · rw [hg] at h
    exact processOneEpisode_ready env st p j p' hr h
  · rw [hg] at h
    exact (Except.ok.inj h) ▸ hr

theorem processEpisodes_cons (env : Env) (st : SessionState) (p : Postcast)
    (j : EpisodeData) (rest : List EpisodeData) :
    processEpisodes env st p (j :: rest) =
      match processOneEpisode env st p j with
      | .error e => .error e
      | .ok p' => processEpisodes env st p' rest := rfl

theorem processNewEpisodes_cons (env : Env) (st : SessionState) (p : Postcast)
    (j : EpisodeData) (rest : List EpisodeData) :
    processNewEpisodes env st p (j :: rest) =
      match processOneNew env st p j with
      | .error e => .error e
      | .ok p' => processNewEpisodes env st p' rest := rfl

theorem processEpisodes_skip (env : Env) (st : SessionState)
    (hlog : st.logged_in = true) (j : EpisodeData) (hurl : j.podcast_raw_url = "")
    (l₁ l₂ : List EpisodeData) :
    ∀ p, processEpisodes env st p (l₁ ++ j :: l₂) =
      processEpisodes env st p (l₁ ++ l₂) := by
  induction l₁ with
  | nil =>
    intro p
    simp only [List.nil_append]
    rw [processEpisodes_cons, processOneEpisode_skip env st p j hlog hurl]
  | cons a l₁ ih =>
    intro p
    simp only [List.cons_append]
    rw [processEpisodes_cons env st p a (l₁ ++ j :: l₂),
      processEpisodes_cons env st p a (l₁ ++ l₂)]
    cases ho : processOneEpisode env st p a with
    | error e => rfl
    | ok p1 => exact ih p1

theorem processNewEpisodes_skip (env : Env) (st : SessionState)
    (hlog : st.logged_in = true) (j : EpisodeData) (hurl : j.podcast_raw_url = "")
    (l₁ l₂ : List EpisodeData) :
    ∀ p, isReady p = true → processNewEpisodes env st p (l₁ ++ j :: l₂) =
      processNewEpisodes env st p (l₁ ++ l₂) := by
  induction l₁ with
  | nil =>
    intro p hr
    simp only [List.nil_append]
    rw [processNewEpisodes_cons, processOneNew_skip env st p j hlog hr hurl]
  | cons a l₁ ih =>
    intro p hr
    simp only [List.cons_append]
    rw [processNewEpisodes_cons env st p a (l₁ ++ j :: l₂),
      processNewEpisodes_cons env st p a (l₁ ++ l₂)]
    cases ho : processOneNew env st p a with
    | error e => rfl
    | ok p1 => exact ih p1 (processOneNew_ready env st p a p1 hr ho)

theorem processEpisodes_absent (env : Env) (st : SessionState) :
    ∀ (L : List EpisodeData) (p p' : Postcast) (x : Int),
      isReady p = true → hasGuid p x = false → x ∉ L.map EpisodeData.id →
      processEpisodes env st p L = .ok p' →
      hasGuid p' x = false ∧ isReady p' = true := by
  intro L
  induction L with
  | nil =>
    intro p p' x hr hg _ h
    exact (Except.ok.inj h) ▸ ⟨hg, hr⟩
  | cons j L ih =>
    intro p p' x hr hg hmem h
    simp only [List.map_cons, List.mem_cons, not_or] at hmem
    unfold processEpisodes at h
    cases ho : processOneEpisode env st p j with
    | error e =>
      rw [ho] at h
      exact Except.noConfusion h
    | ok p1 =>
      rw [ho] at h
      have hr1 : isReady p1 = true := processOneEpisode_ready env st p j p1 hr ho
      have hg1 : hasGuid p1 x = false := by
        rw [processOneEpisode_guid env st p j p1 x ho hmem.1]
        exact hg
      exact ih p1 p' x hr1 hg1 hmem.2 h

/-- C8: an episode whose primary media URL is the empty string is skipped
by both reconciliation loops: removing it from the listing does not change
the run, its identifier is never added (so `has_episode` stays false for
it when no other listed episode carries that identifier), and the
remaining episodes of the listing are still processed. -/
theorem c8_empty_enclosure_skip (env : Env) (st : SessionState) (j : EpisodeData)
    (l₁ l₂ : List EpisodeData) (hlog : st.logged_in = true)
    (hurl : j.podcast_raw_url = "") :
    (∀ p, processEpisodes env st p (l₁ ++ j :: l₂) =
       processEpisodes env st p (l₁ ++ l₂)) ∧
    (∀ p, isReady p = true → processNewEpisodes env st p (l₁ ++ j :: l₂) =
       processNewEpisodes env st p (l₁ ++ l₂)) ∧
    (∀ (p p' : Postcast), isReady p = true → hasGuid p j.id = false →
       j.id ∉ (l₁ ++ l₂).map EpisodeData.id →
       processEpisodes env st p (l₁ ++ j :: l₂) = .ok p' →
       p'.has_episode j.id = .ok false) := by
  refine ⟨processEpisodes_skip env st hlog j hurl l₁ l₂,
    processNewEpisodes_skip env st hlog j hurl l₁ l₂, ?_⟩
  intro p p' hr hg hmem h
  rw [processEpisodes_skip env st hlog j hurl l₁ l₂ p] at h
  obtain ⟨hg', hr'⟩ := processEpisodes_absent env st (l₁ ++ l₂) p p' j.id hr hg hmem h
  rw [has_episode_eq_ok p' j.id hr', hg']

/-! ## Sample listing data for the loop witnesses -/

def eD1 : EpisodeData :=
  ⟨"d1", "https://www.ilpost.it/x1", "31 gen 2026 14:00", 10,
    "https://media.example/x1.mp3", 201, 9, "i1"⟩

def eDempty : EpisodeData :=
  ⟨"d0", "https://www.ilpost.it/x0", "1 feb 2026", 5, "", 200, 9, "i0"⟩

def eD2 : EpisodeData :=
  ⟨"d2", "https://www.ilpost.it/x2", "7 feb 2026 09:30", 25,
    "https://media.example/x2.mp3", 202, 9, "i2"⟩

def envS : Env :=
  ⟨fun _ => .ok ⟨[eD1, eDempty, eD2], "OK"⟩, fun _ => some "contenuto",
    fun _ => .status 200, 200⟩

/-- C8 witness: the skip theorem applied to a concrete listing with an
empty-enclosure episode in the middle, for both loops. -/
theorem c8_empty_enclosure_skip_witness :
    processEpisodes envS ⟨true⟩ pS [eD1, eDempty, eD2] =
      processEpisodes envS ⟨true⟩ pS [eD1, eD2] ∧
    processNewEpisodes envS ⟨true⟩ pS [eD1, eDempty, eD2] =
      processNewEpisodes envS ⟨true⟩ pS [eD1, eD2] :=
  ⟨(c8_empty_enclosure_skip envS ⟨true⟩ eDempty [eD1] [eD2] rfl rfl).1 pS,
   (c8_empty_enclosure_skip envS ⟨true⟩ eDempty [eD1] [eD2] rfl rfl).2.1 pS (by decide)⟩

/-! ## The per-podcast batch loop: error propagation (C1, C6) -/

/-- C1 (amended): only feed-file absence is isolated per podcast (it is
caught and answered by building a fresh feed).  Any other fatal error
while processing one podcast stops the batch loop at that podcast: the
file system stays as it was after the podcasts processed before it, and
the remaining podcasts are not processed and not written. -/
theorem c1_fatal_error_aborts_batch (env : Env) (u pw folder : String) :
    ∀ (pre : List (String × PodcastInfoDict)) (bad : String × PodcastInfoDict)
      (rest : List (String × PodcastInfoDict)) (fs : FS) (st : SessionState)
      (fs' : FS) (st' : SessionState) (er : Err),
      mainLoop env u pw folder fs st pre = (fs', st', none) →
      processSlug env u pw folder fs' st' bad.1 bad.2 = .error er →
      mainLoop env u pw folder fs st (pre ++ bad :: rest) = (fs', st', some er) := by
  intro pre
  induction pre with
  | nil =>
    intro bad rest fs st fs' st' er hpre hbad
    obtain ⟨slug, info⟩ := bad
    simp only [mainLoop, Prod.mk.injEq] at hpre
    obtain ⟨h1, h2, -⟩ := hpre
    subst h1
    subst h2
    simp only [List.nil_append, mainLoop, hbad]
  | cons a pre ih =>
    intro bad rest fs st fs' st' er hpre hbad
    obtain ⟨slug, info⟩ := a
    simp only [mainLoop] at hpre ⊢
    cases hps : processSlug env u pw folder fs st slug info with
    | ok v =>
      obtain ⟨fs₁, st₁⟩ := v
      simp only [hps] at hpre ⊢
      exact ih bad rest fs₁ st₁ fs' st' er hpre hbad
    | error e =>
      simp only [hps, Prod.mk.injEq] at hpre
      cases hpre.2.2

/-! Sample data for the batch-loop results: podcast `a` (id 1) has an
existing well-formed feed on disk but its listing request fails
(`msg = "KO"`); podcast `b` (id 2) has no file yet and a healthy listing
with one new episode. -/

def infoA : PodcastInfoDict := ⟨"Pod A", "Autore", 1, 1, "imgA", "descA"⟩

def infoB : PodcastInfoDict := ⟨"Pod B", "Autore", 2, 1, "imgB", "descB"⟩

def feedA : Feed :=
  ⟨some ⟨"Yes", "Pod A", "imgA", "descA", "it", "https://www.ilpost.it/podcasts/a",
    "Autore", "false", []⟩⟩

def fsC1 : FS := fun k => if k = "./a.xml" then some (.feedDoc feedA) else none

def epB : EpisodeData :=
  ⟨"tB", "https://www.ilpost.it/eB", "31 gen 2026 14:00", 10,
    "https://media.example/b.mp3", 7, 2, "imgEB"⟩

def envC1 : Env :=
  ⟨fun i => if i = 1 then .ok ⟨[], "KO"⟩ else .ok ⟨[epB], "OK"⟩,
    fun _ => some "contenuto", fun _ => .status 200, 200⟩

/-- C1 counterexample: in the batch `[a, b]`, podcast `a`'s fatal
listing error prevents podcast `b` from being processed — `b.xml` is never
written — although processing `b` alone would have written it. -/
theorem c1_isolation_counterexample :
    (mainLoop envC1 "u" "p" "." fsC1 ⟨false⟩ [("a", infoA), ("b", infoB)]).1
        "./b.xml" = none ∧
    (mainLoop envC1 "u" "p" "." fsC1 ⟨false⟩ [("a", infoA), ("b", infoB)]).2.2 =
        some (.remote "KO") ∧
    (mainLoop envC1 "u" "p" "." fsC1 ⟨false⟩ [("b", infoB)]).1 "./b.xml" ≠ none := by
  exact ⟨by decide, by decide, by decide⟩

/-- C1 witness: the abort theorem applied to the concrete two-podcast
batch in which the first podcast's listing request fails. -/
theorem c1_fatal_error_aborts_batch_witness :
    mainLoop envC1 "u" "p" "." fsC1 ⟨false⟩ [("a", infoA), ("b", infoB)] =
      (fsC1, ⟨false⟩, some (.remote "KO")) :=
  c1_fatal_error_aborts_batch envC1 "u" "p" "." [] ("a", infoA) [("b", infoB)]
    fsC1 ⟨false⟩ fsC1 ⟨false⟩ (.remote "KO") rfl (by rfl)

/-- C6 (amended): loading an existing but malformed feed file does not
fail — the lenient parser yields a document without a channel — but the
first membership test on that document then raises the not-initialized
error, which the per-podcast handler does not catch: the podcast's run is
fatal, the corrupt file is never overwritten, and the rest of the batch is
aborted. -/
theorem c6_malformed_feed_fatal_not_overwritten (env : Env) (u pw folder : String)
    (fs : FS) (st : SessionState) (slug : String) (info : PodcastInfoDict)
    (rest : List (String × PodcastInfoDict)) (j : EpisodeData)
    (js : List EpisodeData)
    (hfile : fs (folder ++ "/" ++ slug ++ ".xml") = some .otherXml)
    (hu : u ≠ "") (hpw : pw ≠ "")
    (hlist : env.listing info.id = .ok ⟨j :: js, "OK"⟩) :
    mainLoop env u pw folder fs st ((slug, info) :: rest) =
      (fs, st, some .notInitialized) := by
  have hload : load_existing_feed fs folder (Postcast.ofInfo slug info) =
      .ok { Postcast.ofInfo slug info with feed := some ⟨none⟩ } := by
    unfold load_existing_feed
    rw [show (Postcast.ofInfo slug info).slug = slug from rfl, hfile]
    rfl
  have hlogin : wplogin env.loginResponse st u pw = .ok ⟨true⟩ := by
    unfold wplogin
    rw [if_neg]
    rintro (h | h)
    · exact hu h
    · exact hpw h
  have hdata : get_podcast_data env ⟨true⟩
      { Postcast.ofInfo slug info with feed := some ⟨none⟩ } =
      .ok ⟨j :: js, "OK"⟩ := by
    unfold get_podcast_data
    rw [show ({ Postcast.ofInfo slug info with
      feed := some ⟨none⟩ } : Postcast).id = info.id from rfl, hlist]
    simp
  have hnew : processNewEpisodes env ⟨true⟩
      { Postcast.ofInfo slug info with feed := some ⟨none⟩ } (j :: js) =
      .error .notInitialized := by
    rw [processNewEpisodes_cons]
    rfl
  simp only [mainLoop, processSlug, processSlugInner, hload, hlogin, hdata, hnew]

def fsC6 : FS := fun k => if k = "./a.xml" then some .otherXml else none

/-- C6 counterexample: `load_existing_feed` on an existing malformed file
does not fail with a parse error; the lenient parser succeeds and yields a
document with no channel. -/
theorem c6_load_lenient_counterexample :
    load_existing_feed fsC6 "." (Postcast.ofInfo "a" infoA) =
      .ok { Postcast.ofInfo "a" infoA with feed := some ⟨none⟩ } := by
  decide

def envC6 : Env :=
  ⟨fun _ => .ok ⟨[epB], "OK"⟩, fun _ => some "contenuto",
    fun _ => .status 200, 200⟩

/-- C6 witness: the amended theorem applied to a batch whose first podcast
has a malformed feed file on disk. -/
theorem c6_malformed_feed_fatal_not_overwritten_witness :
    mainLoop envC6 "u" "p" "." fsC6 ⟨false⟩ [("a", infoA), ("b", infoB)] =
      (fsC6, ⟨false⟩, some .notInitialized) :=
  c6_malformed_feed_fatal_not_overwritten envC6 "u" "p" "." fsC6 ⟨false⟩ "a"
    infoA [("b", infoB)] epB [] (by decide) (by decide) (by decide) (by decide)

end Postcasts
